import Mathlib

/-!
Verification of the `sequential` crate's `Sequence<T>` generator.

The generator works over any unsigned integer type `T` (u8 .. u128, usize)
through the `SeqNum` trait, which provides `zero`, `one`, `max_val` and
`checked_add`.  We embed such a type as the natural numbers `0 .. M`, where
`M` stands for `T::max_val()`; `checked_add` then returns the sum exactly
when it does not exceed `M`.  Every operation of `src/sequence.rs` is
translated field for field; the state is the struct `(next, incr, max)`.
-/

namespace Sequential

/-- `SeqNum::checked_add` for a type whose maximal value is `M`:
the sum, unless it exceeds `M`. -/
def checkedAdd (M a b : Nat) : Option Nat :=
  if a + b ≤ M then some (a + b) else none

/-- The struct `Sequence<T>` of `src/sequence.rs`: the value to be produced
next, the increment (`0` encodes a passivated instance), and the inclusive
upper limit `max`. -/
structure Sequence where
  next : Nat
  incr : Nat
  max : Nat
deriving DecidableEq

/-- `Sequence::new()`: starts with 0, increments by 1, limit `max_val`. -/
def Sequence.new (M : Nat) : Sequence := ⟨0, 1, M⟩

/-- `Sequence::dead()`: a dead instance, good for nothing. -/
def Sequence.dead (M : Nat) : Sequence := ⟨0, 0, M⟩

/-- `Sequence::start_with(val)`: starts with `val`, increments by 1. -/
def Sequence.start_with (M val : Nat) : Sequence := ⟨val, 1, M⟩

/-- `Sequence::start_after(val)`: starts with `val + 1` via checked
addition; on overflow produces a dead instance. -/
def Sequence.start_after (M val : Nat) : Sequence :=
  match checkedAdd M val 1 with
  | some next => ⟨next, 1, M⟩
  | none => Sequence.dead M

/-- The Rust iterator combinator `values.reduce(|x, y| max(x, y))`:
`none` on an empty iterator, otherwise the fold of `max` over the rest,
seeded with the first element. -/
def reduceMax : List Nat → Option Nat
  | [] => none
  | x :: xs => some (xs.foldl Nat.max x)

/-- `Sequence::start_after_highest(values)`: starts after the highest value
returned by the iterator, `reduce(max).unwrap_or(0)`. -/
def Sequence.start_after_highest (M : Nat) (values : List Nat) : Sequence :=
  Sequence.start_after M ((reduceMax values).getD 0)

/-- `Sequence::with_start_end_increment(start, end, incr)`. -/
def Sequence.with_start_end_increment (start stop incr : Nat) : Sequence :=
  ⟨start, incr, stop⟩

/-- `Sequence::set_passive()`: sets the increment to zero. -/
def Sequence.set_passive (s : Sequence) : Sequence := ⟨s.next, 0, s.max⟩

/-- `Sequence::is_active()`. -/
def Sequence.is_active (s : Sequence) : Bool := s.incr != 0

/-- `Sequence::is_passive()`. -/
def Sequence.is_passive (s : Sequence) : Bool := s.incr == 0

/-- `Sequence::with_increment(incr)`: replaces the increment, but only on
an active instance. -/
def Sequence.with_increment (s : Sequence) (incr : Nat) : Sequence :=
  if s.is_active then ⟨s.next, incr, s.max⟩ else s

/-- `Sequence::continue_after(val)`: raises `next` to
`max(next, val + incr)`, or passivates when the addition overflows. -/
def Sequence.continue_after (s : Sequence) (M val : Nat) : Sequence :=
  match checkedAdd M val s.incr with
  | some candidate => ⟨Nat.max s.next candidate, s.incr, s.max⟩
  | none => s.set_passive

/-- `<Sequence as Iterator>::next()`: the produce-next operation, returning
the produced value (if any) together with the successor state. -/
def Sequence.iterNext (s : Sequence) (M : Nat) : Option Nat × Sequence :=
  let s1 := if s.next > s.max then s.set_passive else s
  if s1.is_passive then (none, s1)
  else
    let current := s1.next
    match checkedAdd M s1.next s1.incr with
    | some next => (some current, ⟨next, s1.incr, s1.max⟩)
    | none => (some current, s1.set_passive)

/-- The list of values obtained by calling produce-next up to `fuel` times,
stopping at the first end-of-sequence signal. -/
def Sequence.run (s : Sequence) (M : Nat) : Nat → List Nat
  | 0 => []
  | n + 1 =>
    match s.iterNext M with
    | (some v, s2) => v :: s2.run M n
    | (none, _) => []

/-- The state reached after `n` produce-next calls. -/
def Sequence.advance (s : Sequence) (M : Nat) : Nat → Sequence
  | 0 => s
  | n + 1 => ((s.iterNext M).2).advance M n

/-- The derived `Default` instance of `Sequence<T>`: every field is
`T::default()`, i.e. zero for every unsigned integer type. -/
def Sequence.derivedDefault : Sequence := ⟨0, 0, 0⟩

/-- Modelled from the spec: the persisted (serde) representation of a
`Sequence`.  The serialization mechanism itself is the external `serde`
library and is not part of `src/`; the spec fixes the canonical field set
`next`, `increment`, and an optional `limit` (`max`). -/
structure Persisted where
  next : Nat
  incr : Nat
  max : Option Nat
deriving DecidableEq

/-- Modelled from the spec: serializing writes all three fields. -/
def serialize (s : Sequence) : Persisted := ⟨s.next, s.incr, some s.max⟩

/-- Modelled from the spec: deserializing reads the three fields, the
absent `max` defaulting to the numeric kind's maximum value
(`serde(default = "SeqNum::max_val")`). -/
def deserialize (M : Nat) (p : Persisted) : Sequence :=
  ⟨p.next, p.incr, p.max.getD M⟩

/-- The produce-next operation exactly as the spec's three-step algorithm
words it: first, if `next > limit`, passivate; then, if passive, no value;
otherwise capture `current = next`, checked-add the increment, on success
store the sum, on overflow passivate, and return `current`. -/
def specProduceNext (M : Nat) (s : Sequence) : Option Nat × Sequence :=
  let s1 := if s.next > s.max then ⟨s.next, 0, s.max⟩ else s
  if s1.incr = 0 then (none, s1)
  else
    let current := s1.next
    match checkedAdd M s1.next s1.incr with
    | some sum => (some current, ⟨sum, s1.incr, s1.max⟩)
    | none => (some current, ⟨s1.next, 0, s1.max⟩)

/-- **C1.** One produce-next call behaves exactly as the spec's three-step
algorithm: passivate when `next > limit`; signal end-of-sequence when
passive; otherwise return `current = next` and advance by the increment,
passivating on overflow. -/
theorem C1_produce_next_three_steps (M : Nat) (s : Sequence) :
    s.iterNext M = specProduceNext M s := by
  obtain ⟨n, i, m⟩ := s
  simp only [Sequence.iterNext, specProduceNext, Sequence.set_passive,
    Sequence.is_passive, beq_iff_eq]

lemma natMax_eq_max (a b : Nat) : Nat.max a b = max a b := rfl

lemma set_passive_of_passive (s : Sequence) (h : s.incr = 0) : s.set_passive = s := by
  rw [Sequence.set_passive, ← h]

lemma iterNext_passive (M : Nat) (s : Sequence) (h : s.incr = 0) :
    s.iterNext M = (none, s) := by
  simp [Sequence.iterNext, set_passive_of_passive s h, Sequence.is_passive, h]

lemma run_passive (M fuel : Nat) (s : Sequence) (h : s.incr = 0) :
    s.run M fuel = [] := by
  cases fuel with
  | zero => rfl
  | succ n => simp [Sequence.run, iterNext_passive M s h]

lemma iterNext_eq_some (M v : Nat) (s t : Sequence) (h : s.iterNext M = (some v, t)) :
    s.next ≤ s.max ∧ s.incr ≠ 0 ∧ v = s.next ∧
      ((s.next + s.incr ≤ M ∧ t = ⟨s.next + s.incr, s.incr, s.max⟩) ∨
        (M < s.next + s.incr ∧ t = ⟨s.next, 0, s.max⟩)) := by
  obtain ⟨n, i, m⟩ := s
  simp only [Sequence.iterNext, Sequence.set_passive, Sequence.is_passive,
    checkedAdd, beq_iff_eq] at h
  simp only []
  split_ifs at h with h1 h2 h3 <;> simp_all <;>
    obtain ⟨rfl, rfl⟩ := h <;> simp

lemma iterNext_none_incr (M : Nat) (t : Sequence) (h : (t.iterNext M).1 = none) :
    ((t.iterNext M).2).incr = 0 := by
  obtain ⟨n, i, m⟩ := t
  simp only [Sequence.iterNext, Sequence.set_passive, Sequence.is_passive,
    checkedAdd, beq_iff_eq] at h ⊢
  split_ifs at h ⊢ <;> simp_all

/-- **C2.** Passivation is terminal and absorbing: with `incr == 0`,
produce-next returns no value and keeps `incr == 0`, `with_increment` and
`continue_after` leave `incr` at 0, every run produces nothing, and any
produce-next call that signals end-of-sequence leaves `incr == 0` behind,
so all later calls signal end-of-sequence too. -/
theorem C2_passivation_terminal (M v i : Nat) (s : Sequence)
    (hp : s.incr = 0) (hv : v ≤ M) :
    (s.iterNext M).1 = none ∧ ((s.iterNext M).2).incr = 0 ∧
      (s.with_increment i).incr = 0 ∧
      (s.continue_after M v).incr = 0 ∧
      (∀ fuel, s.run M fuel = []) ∧
      (∀ t : Sequence, (t.iterNext M).1 = none → ((t.iterNext M).2).incr = 0) := by
  refine ⟨?_, ?_, ?_, ?_, ?_, ?_⟩
  · rw [iterNext_passive M s hp]
  · rw [iterNext_passive M s hp]; exact hp
  · simp [Sequence.with_increment, Sequence.is_active, hp]
  · have hca : checkedAdd M v 0 = some v := by
      simp [checkedAdd, hv]
    simp [Sequence.continue_after, hp, hca]
  · exact fun fuel => run_passive M fuel s hp
  · exact fun t ht => iterNext_none_incr M t ht

/-- Witness for C2 at `M = 255`, `s = ⟨5, 0, 255⟩`, `v = 7`, `i = 3`. -/
theorem C2_witness :
    ((Sequence.mk 5 0 255).iterNext 255).1 = none ∧
      (((Sequence.mk 5 0 255).iterNext 255).2).incr = 0 ∧
      ((Sequence.mk 5 0 255).with_increment 3).incr = 0 ∧
      ((Sequence.mk 5 0 255).continue_after 255 7).incr = 0 ∧
      (∀ fuel, (Sequence.mk 5 0 255).run 255 fuel = []) ∧
      (∀ t : Sequential.Sequence,
        (t.iterNext 255).1 = none → ((t.iterNext 255).2).incr = 0) :=
  C2_passivation_terminal 255 7 3 (Sequence.mk 5 0 255) (by decide) (by decide)

/-- **C3.** Monotonicity: if two consecutive produce-next calls return
`Some v1` then `Some v2`, then `v2 > v1` and `v2 - v1` equals the increment
in effect when `v1` was produced. -/
theorem C3_monotonic_consecutive (M v1 v2 : Nat) (s s1 s2 : Sequence)
    (h1 : s.iterNext M = (some v1, s1)) (h2 : s1.iterNext M = (some v2, s2)) :
    v1 < v2 ∧ v2 - v1 = s.incr := by
  obtain ⟨hle, hi, hv, hcase⟩ := iterNext_eq_some M v1 s s1 h1
  rcases hcase with ⟨hadd, rfl⟩ | ⟨hov, rfl⟩
  · obtain ⟨hle2, hi2, hv2, _⟩ := iterNext_eq_some M v2 _ s2 h2
    simp only [] at hv2
    constructor <;> omega
  · have h0 := (iterNext_eq_some M v2 _ s2 h2).2.1
    exact absurd rfl h0

/-- Witness for C3: the fresh `u8` sequence produces 0 then 1. -/
theorem C3_witness :
    0 < 1 ∧ 1 - 0 = (Sequence.mk 0 1 255).incr :=
  C3_monotonic_consecutive 255 0 1 (Sequence.mk 0 1 255)
    (Sequence.mk 1 1 255) (Sequence.mk 2 1 255) rfl rfl

/-- **C4.** Fast-forward no-regression and idempotence: `continue_after v`
sets `next` to `max(next, v + incr)` when the checked addition succeeds and
passivates on overflow; it never decreases `next`; and when `next` is
already at least `v + incr` the whole state is unchanged. -/
theorem C4_continue_after_no_regression (M v : Nat) (s : Sequence)
    (hn : s.next ≤ M) :
    (v + s.incr ≤ M →
        s.continue_after M v = ⟨Nat.max s.next (v + s.incr), s.incr, s.max⟩) ∧
      (M < v + s.incr → s.continue_after M v = ⟨s.next, 0, s.max⟩) ∧
      s.next ≤ (s.continue_after M v).next ∧
      (v + s.incr ≤ s.next → s.continue_after M v = s) := by
  by_cases hc : v + s.incr ≤ M
  · have hm : s.continue_after M v = ⟨Nat.max s.next (v + s.incr), s.incr, s.max⟩ := by
      simp [Sequence.continue_after, checkedAdd, hc]
    refine ⟨fun _ => hm, fun h => absurd hc (by omega), ?_, ?_⟩
    · rw [hm]; exact Nat.le_max_left _ _
    · intro hle
      have hmx : Nat.max s.next (v + s.incr) = s.next := by
        rw [natMax_eq_max]; omega
      rw [hm, hmx]
  · have hm : s.continue_after M v = ⟨s.next, 0, s.max⟩ := by
      simp [Sequence.continue_after, checkedAdd, Sequence.set_passive, hc]
    refine ⟨fun h => absurd h hc, fun _ => hm, ?_, fun hle => absurd hle (by omega)⟩
    rw [hm]

/-- Witness for C4 at `M = 255`, `v = 20`, `s = ⟨10, 1, 255⟩`. -/
theorem C4_witness :
    (Sequence.mk 10 1 255).next ≤
      ((Sequence.mk 10 1 255).continue_after 255 20).next :=
  (C4_continue_after_no_regression 255 20 (Sequence.mk 10 1 255) (by decide)).2.2.1

/-- **C5.** `start_after v` equals `start_with (v + 1)` whenever `v` is
below the maximum value, and at `v = max_val` it yields an
already-passivated instance instead of failing. -/
theorem C5_start_after_checked (M v : Nat) :
    (v < M → Sequence.start_after M v = Sequence.start_with M (v + 1)) ∧
      (v = M → (Sequence.start_after M v).incr = 0) := by
  constructor
  · intro h
    have h1 : v + 1 ≤ M := h
    simp [Sequence.start_after, checkedAdd, h1, Sequence.start_with]
  · intro h
    have h2 : ¬ (v + 1 ≤ M) := by omega
    simp [Sequence.start_after, checkedAdd, h2, Sequence.dead]

/-- Witness for C5 at `M = 255`, `v = 254`. -/
theorem C5_witness :
    Sequence.start_after 255 254 = Sequence.start_with 255 255 :=
  (C5_start_after_checked 255 254).1 (by decide)

lemma foldl_max_spec (as : List Nat) (a : Nat) :
    (as.foldl Nat.max a = a ∨ as.foldl Nat.max a ∈ as) ∧
      a ≤ as.foldl Nat.max a ∧ ∀ x ∈ as, x ≤ as.foldl Nat.max a := by
  induction as generalizing a with
  | nil => exact ⟨Or.inl rfl, Nat.le_refl a, fun x hx => absurd hx (List.not_mem_nil x)⟩
  | cons b bs ih =>
    obtain ⟨hmem, hle, hall⟩ := ih (Nat.max a b)
    refine ⟨?_, ?_, ?_⟩
    · rcases hmem with h | h
      · have hab : Nat.max a b = a ∨ Nat.max a b = b := by
          rw [natMax_eq_max]; omega
        have hc : List.foldl Nat.max a (b :: bs) = Nat.max a b := by
          rw [List.foldl_cons, h]
        rcases hab with hab | hab
        · exact Or.inl (by rw [hc, hab])
        · exact Or.inr (by rw [hc, hab]; exact List.mem_cons_self b bs)
      · exact Or.inr (List.mem_cons_of_mem b h)
    · exact Nat.le_trans (Nat.le_max_left a b) hle
    · intro x hx
      rcases List.mem_cons.mp hx with rfl | hx2
      · exact Nat.le_trans (Nat.le_max_right a _) hle
      · exact hall x hx2

lemma reduceMax_eq_max (m : Nat) (l : List Nat) (hmem : m ∈ l)
    (hub : ∀ x ∈ l, x ≤ m) : reduceMax l = some m := by
  cases l with
  | nil => cases hmem
  | cons a as =>
    obtain ⟨hf, ha, hall⟩ := foldl_max_spec as a
    have h1 : as.foldl Nat.max a ≤ m := by
      rcases hf with h | h
      · rw [h]; exact hub a (List.mem_cons_self a as)
      · exact hub _ (List.mem_cons_of_mem a h)
    have h2 : m ≤ as.foldl Nat.max a := by
      rcases List.mem_cons.mp hmem with rfl | hm
      · exact ha
      · exact hall m hm
    simp [reduceMax]
    omega

/-- **C6.** `start_after_highest values` equals `start_after m` for the
maximum element `m` of the iterator, and for an empty iterator it equals
`start_after 0`, whose first produced value is 1. -/
theorem C6_start_after_highest_max (M m : Nat) (l : List Nat) (hM : 1 ≤ M)
    (hmem : m ∈ l) (hub : ∀ x ∈ l, x ≤ m) :
    Sequence.start_after_highest M l = Sequence.start_after M m ∧
      Sequence.start_after_highest M ([] : List Nat) = Sequence.start_after M 0 ∧
      ((Sequence.start_after_highest M []).iterNext M).1 = some 1 := by
  refine ⟨?_, rfl, ?_⟩
  · unfold Sequence.start_after_highest
    rw [reduceMax_eq_max m l hmem hub]
    rfl
  · have h1 : Sequence.start_after_highest M [] = ⟨1, 1, M⟩ := by
      simp [Sequence.start_after_highest, reduceMax, Sequence.start_after,
        checkedAdd, hM]
    rw [h1]
    have hgt : ¬ ((1 : Nat) > M) := by omega
    simp only [Sequence.iterNext, Sequence.set_passive, Sequence.is_passive]
    rcases hca : checkedAdd M 1 1 with _ | x <;> simp [hgt, hca]

/-- Witness for C6 at `M = 255`, `l = [3, 1, 2]`, `m = 3`. -/
theorem C6_witness :
    Sequence.start_after_highest 255 [3, 1, 2] = Sequence.start_after 255 3 :=
  (C6_start_after_highest_max 255 3 [3, 1, 2] (by decide) (by decide)
    (by decide)).1

lemma run_cons (M k v : Nat) (s s2 : Sequence) (h : s.iterNext M = (some v, s2)) :
    s.run M (k + 1) = v :: s2.run M k := by
  simp [Sequence.run, h]

lemma run_stop (M k : Nat) (s t : Sequence) (h : s.iterNext M = (none, t)) :
    s.run M k = [] := by
  cases k with
  | zero => rfl
  | succ k2 => simp [Sequence.run, h]

lemma advance_step (M k : Nat) (s t : Sequence) (h : (s.iterNext M).2 = t) :
    s.advance M (k + 1) = t.advance M k := by
  simp [Sequence.advance, h]

lemma advance_passive (M k : Nat) (s : Sequence) (h : s.incr = 0) :
    s.advance M k = s := by
  induction k with
  | zero => rfl
  | succ k2 ih => simp [Sequence.advance, iterNext_passive M s h, ih]

/-- **C7.** Scenario D: the 8-bit sequence `with_start_end_increment 23 38 3`
produces exactly `23, 26, 29, 32, 35, 38` (the limit 38 is inclusive), then
signals end-of-sequence forever; the produced values sum to 183. -/
theorem C7_scenario_d :
    (∀ n : Nat,
        (Sequence.with_start_end_increment 23 38 3).run 255 (n + 6) =
          [23, 26, 29, 32, 35, 38]) ∧
      (∀ n : Nat,
        (((Sequence.with_start_end_increment 23 38 3).advance 255 (n + 6)).iterNext
            255).1 = none) ∧
      ([23, 26, 29, 32, 35, 38] : List Nat).sum = 183 := by
  refine ⟨?_, ?_, by decide⟩
  · intro n
    have h0 : (Sequence.mk 23 3 38).run 255 (n + 6) =
        23 :: (Sequence.mk 26 3 38).run 255 (n + 5) :=
      run_cons 255 (n + 5) 23 _ _ (by decide)
    have h1 : (Sequence.mk 26 3 38).run 255 (n + 5) =
        26 :: (Sequence.mk 29 3 38).run 255 (n + 4) :=
      run_cons 255 (n + 4) 26 _ _ (by decide)
    have h2 : (Sequence.mk 29 3 38).run 255 (n + 4) =
        29 :: (Sequence.mk 32 3 38).run 255 (n + 3) :=
      run_cons 255 (n + 3) 29 _ _ (by decide)
    have h3 : (Sequence.mk 32 3 38).run 255 (n + 3) =
        32 :: (Sequence.mk 35 3 38).run 255 (n + 2) :=
      run_cons 255 (n + 2) 32 _ _ (by decide)
    have h4 : (Sequence.mk 35 3 38).run 255 (n + 2) =
        35 :: (Sequence.mk 38 3 38).run 255 (n + 1) :=
      run_cons 255 (n + 1) 35 _ _ (by decide)
    have h5 : (Sequence.mk 38 3 38).run 255 (n + 1) =
        38 :: (Sequence.mk 41 3 38).run 255 n :=
      run_cons 255 n 38 _ _ (by decide)
    have h6 : (Sequence.mk 41 3 38).run 255 n = [] :=
      run_stop 255 n _ (Sequence.mk 41 0 38) (by decide)
    show (Sequence.mk 23 3 38).run 255 (n + 6) = [23, 26, 29, 32, 35, 38]
    rw [h0, h1, h2, h3, h4, h5, h6]
  · intro n
    have b0 : (Sequence.mk 23 3 38).advance 255 (n + 6) =
        (Sequence.mk 26 3 38).advance 255 (n + 5) :=
      advance_step 255 (n + 5) _ _ (by decide)
    have b1 : (Sequence.mk 26 3 38).advance 255 (n + 5) =
        (Sequence.mk 29 3 38).advance 255 (n + 4) :=
      advance_step 255 (n + 4) _ _ (by decide)
    have b2 : (Sequence.mk 29 3 38).advance 255 (n + 4) =
        (Sequence.mk 32 3 38).advance 255 (n + 3) :=
      advance_step 255 (n + 3) _ _ (by decide)
    have b3 : (Sequence.mk 32 3 38).advance 255 (n + 3) =
        (Sequence.mk 35 3 38).advance 255 (n + 2) :=
      advance_step 255 (n + 2) _ _ (by decide)
    have b4 : (Sequence.mk 35 3 38).advance 255 (n + 2) =
        (Sequence.mk 38 3 38).advance 255 (n + 1) :=
      advance_step 255 (n + 1) _ _ (by decide)
    have b5 : (Sequence.mk 38 3 38).advance 255 (n + 1) =
        (Sequence.mk 41 3 38).advance 255 n :=
      advance_step 255 n _ _ (by decide)
    show (((Sequence.mk 23 3 38).advance 255 (n + 6)).iterNext 255).1 = none
    rw [b0, b1, b2, b3, b4, b5]
    cases n with
    | zero => decide
    | succ k =>
      have b6 : (Sequence.mk 41 3 38).advance 255 (k + 1) =
          (Sequence.mk 41 0 38).advance 255 k :=
        advance_step 255 k _ _ (by decide)
      rw [b6, advance_passive 255 k _ rfl, iterNext_passive 255 _ rfl]

/-- **C8.** Persisted-state round trip: serializing an active sequence and
deserializing it reproduces the state and hence identical subsequent
output; deserializing a representation without the `max` field defaults
the limit to the numeric kind's maximum value. -/
theorem C8_serde_roundtrip (M fuel : Nat) (s : Sequence) (h : s.incr ≠ 0) :
    deserialize M (serialize s) = s ∧
      (∀ n i : Nat, deserialize M (Persisted.mk n i none) = Sequence.mk n i M) ∧
      (deserialize M (serialize s)).run M fuel = s.run M fuel :=
  ⟨rfl, fun _ _ => rfl, rfl⟩

/-- Witness for C8 at `M = 255`, `s = ⟨5, 2, 255⟩`, `fuel = 4`. -/
theorem C8_witness :
    deserialize 255 (serialize (Sequence.mk 5 2 255)) = Sequence.mk 5 2 255 ∧
      (∀ n i : Nat,
        deserialize 255 (Persisted.mk n i none) = Sequence.mk n i 255) ∧
      (deserialize 255 (serialize (Sequence.mk 5 2 255))).run 255 4 =
        (Sequence.mk 5 2 255).run 255 4 :=
  C8_serde_roundtrip 255 4 (Sequence.mk 5 2 255) (by decide)

/-- **C9.** The derived `Default` instance is the all-zero state: it is
passive, produces nothing, and differs from `new()` (whose increment is 1
and whose limit is `max_val`). -/
theorem C9_default_not_new (M : Nat) :
    Sequence.derivedDefault.next = 0 ∧ Sequence.derivedDefault.incr = 0 ∧
      Sequence.derivedDefault.max = 0 ∧
      (∀ fuel, Sequence.derivedDefault.run M fuel = []) ∧
      Sequence.derivedDefault ≠ Sequence.new M := by
  refine ⟨rfl, rfl, rfl, fun fuel => run_passive M fuel _ rfl, ?_⟩
  intro h
  have h2 : Sequence.derivedDefault.incr = (Sequence.new M).incr := by rw [h]
  simp [Sequence.derivedDefault, Sequence.new] at h2

/-- **C10.** On a passive sequence, `continue_after v` never overflows,
leaves the increment and limit unchanged, but raises the internal `next`
field to `max(next, v)`; the observable output is unaffected, every run
still produces nothing. -/
theorem C10_passive_continue_after_frame (M v : Nat) (s : Sequence)
    (hp : s.incr = 0) (hv : v ≤ M) :
    checkedAdd M v s.incr = some v ∧
      (s.continue_after M v).incr = s.incr ∧
      (s.continue_after M v).max = s.max ∧
      (s.continue_after M v).next = Nat.max s.next v ∧
      (∀ fuel, (s.continue_after M v).run M fuel = [] ∧ s.run M fuel = []) := by
  have hca : checkedAdd M v 0 = some v := by simp [checkedAdd, hv]
  have hc : s.continue_after M v = ⟨Nat.max s.next v, 0, s.max⟩ := by
    simp [Sequence.continue_after, hp, hca]
  refine ⟨by rw [hp]; exact hca, by rw [hc, hp], by rw [hc], by rw [hc], ?_⟩
  intro fuel
  exact ⟨run_passive M fuel _ (by rw [hc]), run_passive M fuel s hp⟩

/-- Witness for C10 at `M = 255`, `v = 9`, `s = ⟨5, 0, 255⟩`. -/
theorem C10_witness :
    ((Sequence.mk 5 0 255).continue_after 255 9).next =
      Nat.max (Sequence.mk 5 0 255).next 9 :=
  (C10_passive_continue_after_frame 255 9 (Sequence.mk 5 0 255) rfl
    (by decide)).2.2.2.1

end Sequential
